import Mathlib

/-!
Shallow embedding of the heathscript execution engine.

The embedding follows the TypeScript sources:
  * `src/src/lib/language/cell.ts` — the cell kind catalogue (class `Cell` and
    its subclasses) and the engine (`class Contraption`, its `tick` and
    `moveMarbles` transitions).
  * the compiler (`compile`) and the span helpers from the unnamed source
    parts of the repository.

JavaScript numbers holding integer values are modelled as `Int` (coordinates
can go negative via moves such as a left conveyor at x = 0), JavaScript `%`
as `Int.tmod` (truncated remainder), and object identity of `Marble`
instances as an explicit `id : Nat` field: the TypeScript code compares
marbles with `===` and mutates shared marble objects in place, which the
embedding renders as lookup/update by `id`.  Fallible lookups
(`grid[y]?.[x] ?? null`, `marbles.find(...) ?? null`) return `Option`.
The two unbounded `while` loops of `moveMarbles` are modelled with explicit
fuel, returning `none` when the fuel is exhausted before the loop exits.
-/

namespace Heathscript

/-- The four cardinal directions (`enum Direction` in cell.ts). -/
inductive Direction
  | up
  | down
  | left
  | right
deriving DecidableEq

/-- Source `move(x, y, dir)` from cell.ts: one step from `(x, y)` along a direction. -/
def Direction.moveFrom : Direction → Int × Int → Int × Int
  | .up, (x, y) => (x, y - 1)
  | .down, (x, y) => (x, y + 1)
  | .left, (x, y) => (x - 1, y)
  | .right, (x, y) => (x + 1, y)

/-- Source `opposite(dir)` from cell.ts. -/
def Direction.opposite : Direction → Direction
  | .up => .down
  | .down => .up
  | .left => .right
  | .right => .left

/-- A marble: integer value, position, and the two transient per-step flags.
The `id` field models JavaScript object identity (see module comment). -/
structure Marble where
  id : Nat
  value : Int
  x : Int
  y : Int
  movedThisTick : Bool
  activatedThisTick : Bool
deriving DecidableEq

/-- The cell kind catalogue of cell.ts.  `label` and `teleporter` do not
occur in the sources under src/ and are modelled from the spec (see
`tickCellAt` and `labelPositions`). -/
inductive CellKind
  | air
  | wall
  | error
  | output
  | increment
  | decrement
  | delete
  | sieve
  | conveyor (d : Direction)
  | adder (d : Direction)
  | cloner (d : Direction)
  | label (key : Char)
  | teleporter (key : Char)
deriving DecidableEq

/-- A grid cell: immutable kind plus the transient `activatedThisTick` flag
that cell.ts stores on each `Cell` object. -/
structure GridCell where
  kind : CellKind
  activated : Bool
deriving DecidableEq

/-- A pending move request (`type PendingMove` in contraption.ts); the
`marble` object reference is modelled by its id. -/
structure PendingMove where
  marbleId : Nat
  targetX : Int
  targetY : Int
deriving DecidableEq

/-- A source span (span.ts): 1-based line/column range. -/
structure Span where
  startLineNumber : Nat
  startColumn : Nat
  endLineNumber : Nat
  endColumn : Nat
deriving DecidableEq

/-- A compile diagnostic (`ctx.errors` entries). -/
structure Diagnostic where
  message : String
  span : Span
deriving DecidableEq

/-- The engine state (`class Contraption`).  `nextId` is the id supply for
marbles created by spawn requests (fresh object allocation in JavaScript);
`pendingDeletes` stores marble ids (object references in JavaScript). -/
structure Contraption where
  width : Nat
  height : Nat
  grid : List (List GridCell)
  marbles : List Marble
  output : String
  pendingSpawns : List Marble
  pendingMoves : List PendingMove
  pendingDeletes : List Nat
  nextId : Nat
deriving DecidableEq

/-- Lookup `getCell(x, y)`: `this.grid[y]?.[x] ?? null` — out-of-range (including
negative) indices yield `none`. -/
def getCell (g : List (List GridCell)) (x y : Int) : Option GridCell :=
  if 0 ≤ x ∧ 0 ≤ y then (g[y.toNat]?).bind (fun row => row[x.toNat]?) else none

/-- Lookup `getMarble(x, y)`: first marble of the live list at the coordinate
(`this.marbles.find(...) ?? null`). -/
def getMarble (ms : List Marble) (x y : Int) : Option Marble :=
  ms.find? (fun m => m.x == x && m.y == y)

/-- In-place mutation of the marble object with the given id:
`ms` with the matching marble replaced by `f` of it. -/
def updateMarbles (ms : List Marble) (i : Nat) (f : Marble → Marble) : List Marble :=
  ms.map (fun m => if m.id = i then f m else m)

/-- Replace the `n`-th entry of a list by `f` of it (no-op out of range). -/
def modifyNth (f : α → α) : Nat → List α → List α
  | _, [] => []
  | 0, a :: t => f a :: t
  | n + 1, a :: t => a :: modifyNth f n t

/-- Set the `activatedThisTick` flag of the cell object at `(x, y)`. -/
def setActivated (g : List (List GridCell)) (x y : Int) : List (List GridCell) :=
  if 0 ≤ x ∧ 0 ≤ y then
    modifyNth (fun row => modifyNth (fun c => { c with activated := true }) x.toNat row) y.toNat g
  else g

/-- Solidity `isSolid(contraption)` of each cell kind.  `PassableCell` subclasses
(air, conveyor, the affectors) return `false`, `SolidCell` subclasses
(wall, error, the directional operators) return `true`; `Sieve.isSolid`
inspects the marble directly above.  Label and Teleporter are modelled from
the spec as non-solid. -/
def isSolidAt (ms : List Marble) (k : CellKind) (x y : Int) : Bool :=
  match k with
  | .air | .output | .increment | .decrement | .delete | .conveyor _
  | .label _ | .teleporter _ => false
  | .wall | .error | .adder _ | .cloner _ => true
  | .sieve =>
    match getMarble ms x (y - 1) with
    | none => true
    | some m => m.value != 0

/-- Row-major positions of all Label cells with the given key.

Modelled from the spec: Label cells ("inert named marker keyed by one
base-36 character") are absent from the sources under src/; the teleporter
looks up "the unique Label sharing its key character anywhere on the grid",
with scan order deciding ties. -/
def labelPositions (g : List (List GridCell)) (c : Char) : List (Int × Int) :=
  g.enum.flatMap (fun p =>
    p.2.enum.filterMap (fun q =>
      if q.2.kind == CellKind.label c then some ((q.1 : Int), (p.1 : Int)) else none))

/-- Method `PassableAffector.tick`: if the cell is occupied, run the affect
(which always returns `true` in every subclass) and then set the
`activatedThisTick` flags of both the marble and the cell. -/
def affectorTick (st : Contraption) (x y : Int) (eff : Contraption → Marble → Contraption) :
    Contraption :=
  match getMarble st.marbles x y with
  | none => st
  | some m =>
    let st1 := eff st m
    { st1 with
      marbles := updateMarbles st1.marbles m.id (fun mm => { mm with activatedThisTick := true })
      grid := setActivated st1.grid x y }

/-- Method `Output.affect`: `printLine(String(marble.value))`. -/
def outputEffect (st : Contraption) (m : Marble) : Contraption :=
  { st with output := st.output ++ toString m.value ++ "\n" }

/-- Method `Increment.affect`: `marble.value += 1`. -/
def incrementEffect (st : Contraption) (m : Marble) : Contraption :=
  { st with marbles := updateMarbles st.marbles m.id (fun mm => { mm with value := mm.value + 1 }) }

/-- Method `Decrement.affect`: `marble.value -= 1`. -/
def decrementEffect (st : Contraption) (m : Marble) : Contraption :=
  { st with marbles := updateMarbles st.marbles m.id (fun mm => { mm with value := mm.value - 1 }) }

/-- Method `Delete.affect`: `contraption.remove(marble)` queues a deletion. -/
def deleteEffect (st : Contraption) (m : Marble) : Contraption :=
  { st with pendingDeletes := st.pendingDeletes ++ [m.id] }

/-- One cell's `onStep` (`cell.kind.tick(cell, this)` in the scan of
`Contraption.tick`), dispatching on the kind at `(x, y)`.

The Teleporter case is modelled from the spec: Teleporter cells are absent
from the sources under src/; per the spec, "if occupied, queue a move of
the occupant to the coordinates of the unique Label sharing its key
character anywhere on the grid; if none found, no-op". -/
def tickCellAt (st : Contraption) (x y : Int) : Contraption :=
  match getCell st.grid x y with
  | none => st
  | some gc =>
    match gc.kind with
    | .air | .wall | .error | .sieve | .label _ => st
    | .output => affectorTick st x y outputEffect
    | .increment => affectorTick st x y incrementEffect
    | .decrement => affectorTick st x y decrementEffect
    | .delete => affectorTick st x y deleteEffect
    | .conveyor d =>
      match getMarble st.marbles x y with
      | none => st
      | some m =>
        let t := d.moveFrom (x, y)
        { st with
          pendingMoves := st.pendingMoves ++ [⟨m.id, t.1, t.2⟩]
          grid := setActivated st.grid x y }
    | .adder d =>
      let pa := d.opposite.moveFrom (x, y)
      match getMarble st.marbles pa.1 pa.2 with
      | none => st
      | some ma =>
        let pb := d.moveFrom (x, y)
        match getMarble st.marbles pb.1 pb.2 with
        | none => st
        | some mb =>
          { st with
            marbles := updateMarbles st.marbles mb.id
              (fun mm => { mm with value := ma.value + mb.value, activatedThisTick := true })
            grid := setActivated st.grid x y }
    | .cloner d =>
      let ps := d.opposite.moveFrom (x, y)
      match getMarble st.marbles ps.1 ps.2 with
      | none => st
      | some src =>
        let pt := d.moveFrom (x, y)
        match getCell st.grid pt.1 pt.2 with
        | none => st
        | some tc =>
          if isSolidAt st.marbles tc.kind pt.1 pt.2 then st
          else
            { st with
              pendingSpawns :=
                st.pendingSpawns ++ [⟨st.nextId, src.value, pt.1, pt.2, true, true⟩]
              nextId := st.nextId + 1
              marbles := updateMarbles st.marbles src.id
                (fun mm => { mm with activatedThisTick := true })
              grid := setActivated st.grid x y }
    | .teleporter c =>
      match getMarble st.marbles x y with
      | none => st
      | some m =>
        match (labelPositions st.grid c).head? with
        | none => st
        | some t => { st with pendingMoves := st.pendingMoves ++ [⟨m.id, t.1, t.2⟩] }

/-- Method `resetMarbles()`: clear every marble's `movedThisTick` flag. -/
def resetMarblesMoved (ms : List Marble) : List Marble :=
  ms.map (fun m => { m with movedThisTick := false })

/-- Method `resetActivation()`: clear every marble's and every grid cell's
`activatedThisTick` flag. -/
def resetActivation (st : Contraption) : Contraption :=
  { st with
    marbles := st.marbles.map (fun m => { m with activatedThisTick := false })
    grid := st.grid.map (fun row => row.map (fun c => { c with activated := false })) }

/-- The row-major effect scan of `Contraption.tick`: ascending `y`, then
ascending `x`, invoking each cell's `onStep` once. -/
def tickScan (st : Contraption) : Contraption :=
  (List.range st.height).foldl
    (fun s y => (List.range st.width).foldl
      (fun s2 x => tickCellAt s2 (Int.ofNat x) (Int.ofNat y)) s)
    st

/-- The end-of-effect-phase clamp: `marble.value = Math.max(0, marble.value % 256)`,
with JavaScript `%` being the truncated remainder. -/
def clampValue (v : Int) : Int :=
  max 0 (v.tmod 256)

/-- Method `Contraption.tick()`: reset `movedThisTick` and both activation flag
families, run the row-major scan, clamp every marble value.  The method
mutates the receiver in place and then returns a fresh `Contraption` built
from shallow copies of the receiver's (already mutated) fields; this
definition is the state of that mutated receiver, which carries the same
marble values, positions, flags, grid flags, output and journals as the
returned snapshot (see `tickReturned`). -/
def tick (st : Contraption) : Contraption :=
  let st1 := resetActivation { st with marbles := resetMarblesMoved st.marbles }
  let st2 := tickScan st1
  { st2 with marbles := st2.marbles.map (fun m => { m with value := clampValue m.value }) }

/-- The `Contraption` object returned by `tick()`:
`new Contraption(this.width, this.height, grid, marbles, this.output,
pendingSpawns, pendingMoves, pendingDeletes)` where every array is a
shallow copy of the mutated receiver's. -/
def tickReturned (st : Contraption) : Contraption :=
  let s := tick st
  ⟨s.width, s.height, s.grid, s.marbles, s.output,
    s.pendingSpawns, s.pendingMoves, s.pendingDeletes, s.nextId⟩

/-- One deletion request: `const idx = this.marbles.indexOf(marble);
this.marbles.splice(idx, 1)`.  When the reference is found this removes
that entry; when it is not found, `indexOf` yields `-1` and
`splice(-1, 1)` removes the final entry. -/
def deleteOne (ms : List Marble) (i : Nat) : List Marble :=
  match ms.findIdx? (fun m => m.id == i) with
  | some idx => ms.eraseIdx idx
  | none => ms.dropLast

/-- Apply all pending deletion requests in order. -/
def applyDeletes (ms : List Marble) (ids : List Nat) : List Marble :=
  ids.foldl deleteOne ms

/-- One iteration of the FIFO-with-requeue move-resolution loop of
`Contraption.moveMarbles` (`none` when the queue is empty and the loop
exits): dequeue the head request; if the destination holds a live marble,
requeue the request when that occupant has a move still queued and drop it
otherwise; if the destination is free, drop on a missing or solid cell,
otherwise commit (update coordinates, set `movedThisTick`). -/
def moveStep (g : List (List GridCell)) :
    List PendingMove → List Marble → Option (List PendingMove × List Marble)
  | [], _ => none
  | mv :: rest, ms =>
    match ms.find? (fun m => m.x == mv.targetX && m.y == mv.targetY) with
    | some obstacle =>
      if (rest.find? (fun mv2 => mv2.marbleId == obstacle.id)).isSome then
        some (rest ++ [mv], ms)
      else
        some (rest, ms)
    | none =>
      match getCell g mv.targetX mv.targetY with
      | none => some (rest, ms)
      | some tc =>
        if isSolidAt ms tc.kind mv.targetX mv.targetY then
          some (rest, ms)
        else
          some (rest,
            updateMarbles ms mv.marbleId
              (fun m => { m with x := mv.targetX, y := mv.targetY, movedThisTick := true }))

/-- The move-resolution `while` loop, with fuel: `none` when the fuel is
exhausted while requests remain queued. -/
def resolveMoves (g : List (List GridCell)) : Nat → List PendingMove → List Marble →
    Option (List Marble)
  | 0, q, ms => if q.isEmpty then some ms else none
  | n + 1, q, ms =>
    match moveStep g q ms with
    | none => some ms
    | some (q2, ms2) => resolveMoves g n q2 ms2

/-- One iteration of the gravity loop (`none` when the queue is empty):
dequeue a marble; if a live marble sits directly below, wait on it
(requeue) unless it has settled, in which case settle too; if the cell
below is missing or solid, settle; otherwise fall one row (the marble
leaves the queue without its `movedThisTick` flag set). -/
def gravityStep (g : List (List GridCell)) :
    List Nat → List Marble → Option (List Nat × List Marble)
  | [], _ => none
  | i :: rest, ms =>
    match ms.find? (fun m => m.id == i) with
    | none => some (rest, ms)
    | some m =>
      match getMarble ms m.x (m.y + 1) with
      | some mb =>
        if mb.movedThisTick then
          some (rest, updateMarbles ms i (fun mm => { mm with movedThisTick := true }))
        else
          some (rest ++ [i], ms)
      | none =>
        match getCell g m.x (m.y + 1) with
        | none => some (rest, updateMarbles ms i (fun mm => { mm with movedThisTick := true }))
        | some cb =>
          if isSolidAt ms cb.kind m.x (m.y + 1) then
            some (rest, updateMarbles ms i (fun mm => { mm with movedThisTick := true }))
          else
            some (rest, updateMarbles ms i (fun mm => { mm with y := mm.y + 1 }))

/-- The gravity `while` loop, with fuel. -/
def runGravity (g : List (List GridCell)) : Nat → List Nat → List Marble →
    Option (List Marble)
  | 0, q, ms => if q.isEmpty then some ms else none
  | n + 1, q, ms =>
    match gravityStep g q ms with
    | none => some ms
    | some (q2, ms2) => runGravity g n q2 ms2

/-- The spawn drain of `Contraption.moveMarbles`: each requested marble is
pushed onto the live list unless its coordinate is already occupied
(the occupancy check runs against the growing live list, so it sees
marbles materialized earlier in the same drain). -/
def applySpawns (ms : List Marble) : List Marble → List Marble
  | [] => ms
  | s :: rest =>
    if (getMarble ms s.x s.y).isSome then applySpawns ms rest
    else applySpawns (ms ++ [s]) rest

/-- The body of `Contraption.moveMarbles()` up to (and including) the spawn
drain: reset activation, apply deletions, run the move-resolution loop,
run gravity over the marbles whose `movedThisTick` flag is still false,
apply spawns.  Yields the final live marble list, or `none` when a loop
runs out of fuel. -/
def moveMarblesParts (fuel : Nat) (st : Contraption) : Option (List Marble) :=
  (resolveMoves (resetActivation st).grid fuel st.pendingMoves
      (applyDeletes (resetActivation st).marbles st.pendingDeletes)).bind
    (fun ms1 =>
      (runGravity (resetActivation st).grid fuel
          ((ms1.filter (fun m => !m.movedThisTick)).map Marble.id) ms1).map
        (fun ms2 => applySpawns ms2 st.pendingSpawns))

/-- The `Contraption` object returned by `moveMarbles()`:
`new Contraption(this.width, this.height, grid, marbles, this.output)` —
all three journals of the snapshot are empty. -/
def moveMarbles (fuel : Nat) (st : Contraption) : Option Contraption :=
  (moveMarblesParts fuel st).map (fun ms =>
    ⟨st.width, st.height, (resetActivation st).grid, ms, st.output, [], [], [], st.nextId⟩)

/-- The state of the receiver object after `moveMarbles()` returns: the
method mutates `this.marbles` and the grid flags in place and assigns
`this.pendingDeletes = []` and `this.pendingSpawns = []`, but never clears
`this.pendingMoves` (the loop works on a shallow copy of it). -/
def moveMarblesSelf (fuel : Nat) (st : Contraption) : Option Contraption :=
  (moveMarblesParts fuel st).map (fun ms =>
    ⟨st.width, st.height, (resetActivation st).grid, ms, st.output, [],
      st.pendingMoves, [], st.nextId⟩)

/-- The observables named by the spec's immutability guarantee: marble
values, marble positions, the live marble set (ids), the output buffer,
and the cell activation flags. -/
def observables (st : Contraption) :
    List (Nat × Int × Int × Int) × String × List (List Bool) :=
  (st.marbles.map (fun m => (m.id, m.value, m.x, m.y)),
   st.output,
   st.grid.map (fun row => row.map GridCell.activated))

/-! ### The program builder (`compile`) -/

/-- Source `line.trimEnd()`: drop trailing whitespace. -/
def trimEnd (l : List Char) : List Char :=
  (l.reverse.dropWhile Char.isWhitespace).reverse

/-- Source `line.match(/.{1,2}/g)`: greedy partition into chunks of two characters,
with a final one-character chunk when the length is odd. -/
def chunksOf2 : List Char → List (List Char)
  | [] => []
  | [c] => [[c]]
  | a :: b :: rest => [a, b] :: chunksOf2 rest

/-- One character of the case-insensitive marble test `/^[0-9a-f]{2}$/i`. -/
def isHexDigit (c : Char) : Bool :=
  c.isDigit || (('a' ≤ c.toLower) && (c.toLower ≤ 'f'))

/-- Value of one hexadecimal digit. -/
def hexVal (c : Char) : Nat :=
  if c.isDigit then c.toNat - '0'.toNat else c.toLower.toNat - 'a'.toNat + 10

/-- The direction marker characters `^ v < >`. -/
def directionOfChar : Char → Option Direction
  | '^' => some .up
  | 'v' => some .down
  | '<' => some .left
  | '>' => some .right
  | _ => none

/-- Membership in `getSymbols(s)`: a two-glyph symbol pairing the operator
character `c` with a direction marker on either side; both orders denote
the same facing. -/
def dirSymbol (c : Char) (a b : Char) : Option Direction :=
  if a == c then directionOfChar b
  else if b == c then directionOfChar a
  else none

/-- Source `Cell.from(symbol, ...)` without the error fallback: the fixed symbol
table (exact two-character matches, then conveyors, then the adder and
cloner symbol families); `none` for an unrecognized chunk.  Only
two-character chunks can match. -/
def cellKindOfSymbol : List Char → Option CellKind
  | [a, b] =>
    if a == ' ' && b == ' ' then some .air
    else if a == '.' && b == '.' then some .air
    else if a == '#' && b == '#' then some .wall
    else if a == 'o' && b == 'o' then some .output
    else if a == '+' && b == '+' then some .increment
    else if a == '-' && b == '-' then some .decrement
    else if a == 'x' && b == 'x' then some .delete
    else if a == '"' && b == '"' then some .sieve
    else
      match directionOfChar a, a == b with
      | some d, true => some (.conveyor d)
      | _, _ =>
        match dirSymbol '+' a b with
        | some d => some (.adder d)
        | none => (dirSymbol ':' a b).map CellKind.cloner
  | _ => none

/-- Span `createSpan(y + 1, x * 2 + 1, y + 1, x * 2 + 3)` for the chunk at cell
coordinates `(x, y)`. -/
def chunkSpan (x y : Nat) : Span :=
  ⟨y + 1, 2 * x + 1, y + 1, 2 * x + 3⟩

/-- Compile one chunk at cell coordinates `(x, y)`: a two-hex-digit chunk
becomes an Air cell plus a marble of that byte value; otherwise the symbol
table is consulted, and an unmatched chunk becomes an Error cell plus a
diagnostic.  Yields (cell, optional marble value at this cell, optional
diagnostic). -/
def compileChunk (y x : Nat) (chunk : List Char) : GridCell × Option Nat × Option Diagnostic :=
  match chunk with
  | [a, b] =>
    if isHexDigit a && isHexDigit b then
      (⟨.air, false⟩, some (16 * hexVal a + hexVal b), none)
    else
      match cellKindOfSymbol [a, b] with
      | some k => (⟨k, false⟩, none, none)
      | none =>
        (⟨.error, false⟩, none,
          some ⟨"Unknown symbol " ++ String.mk [a, b] ++ " at " ++ toString (y + 1) ++ ":" ++
            toString (2 * x + 1), chunkSpan x y⟩)
  | other =>
    match cellKindOfSymbol other with
    | some k => (⟨k, false⟩, none, none)
    | none =>
      (⟨.error, false⟩, none,
        some ⟨"Unknown symbol " ++ String.mk other ++ " at " ++ toString (y + 1) ++ ":" ++
          toString (2 * x + 1), chunkSpan x y⟩)

/-- Compile one source line (row `y`): trim trailing whitespace, chunk, and
compile each chunk in order.  Yields the row's cells, the marble values
with their cell x-coordinate, and the diagnostics, all in chunk order. -/
def compileLine (y : Nat) (l : List Char) :
    List GridCell × List (Nat × Nat) × List Diagnostic :=
  let cs := (chunksOf2 (trimEnd l)).enum
  (cs.map (fun p => (compileChunk y p.1 p.2).1),
   cs.filterMap (fun p => ((compileChunk y p.1 p.2).2.1).map (fun v => (v, p.1))),
   cs.filterMap (fun p => (compileChunk y p.1 p.2).2.2))

/-- Source `source.split("\n")`: split a character list at every newline. -/
def splitLines : List Char → List (List Char)
  | [] => [[]]
  | c :: rest =>
    match splitLines rest with
    | [] => [[c]]
    | hd :: tl => if c == '\n' then [] :: hd :: tl else (c :: hd) :: tl

/-- The result of `compile(source)`. -/
structure CompilationResult where
  errors : List Diagnostic
  contraption : Contraption
deriving DecidableEq

/-- Builder `compile(source)`: split into lines, compile each line, right-pad every
row with Air to the maximum row width, and assemble the initial state.
Marble ids are assigned in push order (row-major scan order). -/
def compile (source : String) : CompilationResult :=
  let ls := splitLines source.toList
  let rows := ls.enum.map (fun p => compileLine p.1 p.2)
  let w := rows.foldl (fun acc r => max acc r.1.length) 0
  let grid := rows.map (fun r => r.1 ++ List.replicate (w - r.1.length) (⟨.air, false⟩ : GridCell))
  let specs := rows.enum.flatMap (fun p => p.2.2.1.map (fun q => (q.1, q.2, p.1)))
  let marbles := specs.enum.map (fun p =>
    (⟨p.1, Int.ofNat p.2.1, Int.ofNat p.2.2.1, Int.ofNat p.2.2.2, false, false⟩ : Marble))
  { errors := rows.flatMap (fun r => r.2.2)
    contraption :=
      ⟨w, ls.length, grid, marbles, "", [], [], [], marbles.length⟩ }

/-! ### Concrete states used by counterexamples and witnesses -/

/-- A 1-by-1 contraption holding a decrement cell occupied by a marble of
value 0: the effect phase drives the value to -1 before the clamp. -/
def decrZero : Contraption :=
  ⟨1, 1, [[⟨.decrement, false⟩]], [⟨0, 0, 0, 0, false, false⟩], "", [], [], [], 1⟩

/-- A 1-by-1 contraption holding an increment cell occupied by a marble of
value 5. -/
def incrFive : Contraption :=
  ⟨1, 1, [[⟨.increment, false⟩]], [⟨0, 5, 0, 0, false, false⟩], "", [], [], [], 1⟩

/-- A 2-by-1 all-air grid whose two marbles each have a pending move onto
the other's cell: the swap configuration. -/
def swapGrid : List (List GridCell) :=
  [[⟨.air, false⟩, ⟨.air, false⟩]]

/-- The two swap marbles: id 0 at (0,0) and id 1 at (1,0). -/
def swapMarbles : List Marble :=
  [⟨0, 0, 0, 0, false, false⟩, ⟨1, 0, 1, 0, false, false⟩]

/-- The swap move queue: marble 0 onto (1,0), marble 1 onto (0,0). -/
def swapQueue : List PendingMove :=
  [⟨0, 1, 0⟩, ⟨1, 0, 0⟩]

/-- The swap queue after one loop iteration (head requeued at the tail). -/
def swapQueue2 : List PendingMove :=
  [⟨1, 0, 0⟩, ⟨0, 1, 0⟩]

/-- A 3-by-1 contraption: a teleporter keyed `a` occupied by a marble,
air, and the matching label cell. -/
def teleExample : Contraption :=
  ⟨3, 1, [[⟨.teleporter 'a', false⟩, ⟨.air, false⟩, ⟨.label 'a', false⟩]],
    [⟨0, 7, 0, 0, false, false⟩], "", [], [], [], 1⟩

/-- A 3-by-1 contraption with a right-facing adder between a marble of
value 3 (behind) and a marble of value 10 (ahead). -/
def adderExample : Contraption :=
  ⟨3, 1, [[⟨.air, false⟩, ⟨.adder .right, false⟩, ⟨.air, false⟩]],
    [⟨0, 3, 0, 0, false, false⟩, ⟨1, 10, 2, 0, false, false⟩], "", [], [], [], 2⟩

/-- A 2-by-1 contraption where marble 0 has a pending move onto the cell of
marble 1, which has no pending move of its own. -/
def blockedExample : Contraption :=
  ⟨2, 1, swapGrid, swapMarbles, "", [], [⟨0, 1, 0⟩], [], 2⟩

/-- A 1-by-1 contraption with a single settled marble and no requests. -/
def simpleState : Contraption :=
  ⟨1, 1, [[⟨.air, false⟩]], [⟨0, 4, 0, 0, false, false⟩], "", [], [], [], 1⟩

/-- A 1-by-2 contraption with a sieve cell below a marble of value 0. -/
def sieveExample : Contraption :=
  ⟨1, 2, [[⟨.air, false⟩], [⟨.sieve, false⟩]], [⟨0, 0, 0, 0, false, false⟩], "", [], [], [], 1⟩

/-- Two spawn requests targeting the same empty coordinate (1, 0). -/
def twinSpawns : List Marble :=
  [⟨5, 20, 1, 0, true, true⟩, ⟨6, 30, 1, 0, true, true⟩]

/-! ### Invariant predicates -/

/-- No two entries of the marble list share a coordinate. -/
def PosDistinct (ms : List Marble) : Prop :=
  ms.Pairwise (fun a b => ¬(a.x = b.x ∧ a.y = b.y))

/-- All marble ids are distinct (distinct JavaScript objects). -/
def IdsNodup (ms : List Marble) : Prop :=
  (ms.map Marble.id).Nodup

instance (ms : List Marble) : Decidable (PosDistinct ms) := by
  unfold PosDistinct; infer_instance

instance (ms : List Marble) : Decidable (IdsNodup ms) := by
  unfold IdsNodup; infer_instance

/-! ### Helper lemmas about marble updates -/

theorem updateMarbles_of_not_mem {ms : List Marble} {i : Nat} {f : Marble → Marble}
    (h : ∀ m ∈ ms, m.id ≠ i) : updateMarbles ms i f = ms := by
  induction ms with
  | nil => rfl
  | cons a t ih =>
    have ha : a.id ≠ i := h a (List.mem_cons_self a t)
    simp only [updateMarbles, List.map_cons, if_neg ha]
    have := ih (fun m hm => h m (List.mem_cons_of_mem a hm))
    simpa [updateMarbles] using this

theorem ids_updateMarbles (ms : List Marble) (i : Nat) (f : Marble → Marble)
    (hf : ∀ m, (f m).id = m.id) :
    (updateMarbles ms i f).map Marble.id = ms.map Marble.id := by
  unfold updateMarbles
  rw [List.map_map]
  refine List.map_congr_left (fun m _ => ?_)
  by_cases h : m.id = i <;> simp [h, hf]

theorem pairwise_update_pospres (ms : List Marble) (i : Nat) (f : Marble → Marble)
    (hf : ∀ m, (f m).x = m.x ∧ (f m).y = m.y) (hpd : PosDistinct ms) :
    PosDistinct (updateMarbles ms i f) := by
  unfold PosDistinct updateMarbles
  refine List.Pairwise.map _ (fun a b hab => ?_) hpd
  by_cases ha : a.id = i <;> by_cases hb : b.id = i <;>
    simp [ha, hb, (hf a).1, (hf a).2, (hf b).1, (hf b).2, hab]

theorem pairwise_update_free (ms : List Marble) (i : Nat) (f : Marble → Marble) (tx ty : Int)
    (hf : ∀ m ∈ ms, m.id = i → (f m).x = tx ∧ (f m).y = ty)
    (hfree : ∀ m ∈ ms, ¬(m.x = tx ∧ m.y = ty))
    (hnd : IdsNodup ms) (hpd : PosDistinct ms) :
    PosDistinct (updateMarbles ms i f) := by
  induction ms with
  | nil => exact List.Pairwise.nil
  | cons a t ih =>
    have hndt : IdsNodup t := by
      have := hnd
      simp only [IdsNodup, List.map_cons, List.nodup_cons] at this
      exact this.2
    have hpdt : PosDistinct t := (List.pairwise_cons.mp hpd).2
    have hhead : ∀ b ∈ t, ¬(a.x = b.x ∧ a.y = b.y) := (List.pairwise_cons.mp hpd).1
    by_cases ha : a.id = i
    · have hti : ∀ m ∈ t, m.id ≠ i := by
        intro m hm
        have := hnd
        simp only [IdsNodup, List.map_cons, List.nodup_cons, List.mem_map] at this
        intro hmi
        exact this.1 ⟨m, hm, by rw [hmi, ha]⟩
      have ht : updateMarbles t i f = t := updateMarbles_of_not_mem hti
      simp only [updateMarbles, List.map_cons, if_pos ha]
      rw [show (t.map fun m => if m.id = i then f m else m) = updateMarbles t i f from rfl, ht]
      refine List.pairwise_cons.mpr ⟨?_, hpdt⟩
      intro b hb hcon
      have hfa := hf a (List.mem_cons_self a t) ha
      refine hfree b (List.mem_cons_of_mem a hb) ⟨?_, ?_⟩
      · rw [← hcon.1, hfa.1]
      · rw [← hcon.2, hfa.2]
    · simp only [updateMarbles, List.map_cons, if_neg ha]
      refine List.pairwise_cons.mpr ⟨?_, ?_⟩
      · intro b' hb'
        rcases List.mem_map.mp hb' with ⟨b, hb, hbe⟩
        by_cases hbi : b.id = i
        · rw [if_pos hbi] at hbe
          have hfb := hf b (List.mem_cons_of_mem a hb) hbi
          have hafree := hfree a (List.mem_cons_self a t)
          subst hbe
          intro hcon
          rw [hfb.1, hfb.2] at hcon
          exact hafree hcon
        · rw [if_neg hbi] at hbe
          subst hbe
          exact hhead b hb
      · exact ih (fun m hm hmi => hf m (List.mem_cons_of_mem a hm) hmi)
          (fun m hm => hfree m (List.mem_cons_of_mem a hm)) hndt hpdt

theorem ids_nodup_update (ms : List Marble) (i : Nat) (f : Marble → Marble)
    (hf : ∀ m, (f m).id = m.id) (hnd : IdsNodup ms) : IdsNodup (updateMarbles ms i f) := by
  unfold IdsNodup
  rw [ids_updateMarbles ms i f hf]
  exact hnd

theorem free_of_find?_none {ms : List Marble} {tx ty : Int}
    (h : ms.find? (fun m => m.x == tx && m.y == ty) = none) :
    ∀ m ∈ ms, ¬(m.x = tx ∧ m.y = ty) := by
  intro m hm
  have := List.find?_eq_none.mp h m hm
  simpa using this

theorem moveStep_preserves {g : List (List GridCell)} {q q2 : List PendingMove}
    {ms ms2 : List Marble} (h : moveStep g q ms = some (q2, ms2))
    (hnd : IdsNodup ms) (hpd : PosDistinct ms) : IdsNodup ms2 ∧ PosDistinct ms2 := by
  cases q with
  | nil => simp [moveStep] at h
  | cons mv rest =>
    rw [moveStep] at h
    cases hfind : ms.find? (fun m => m.x == mv.targetX && m.y == mv.targetY) with
    | some obstacle =>
      rw [hfind] at h
      by_cases hq : (rest.find? (fun mv2 => mv2.marbleId == obstacle.id)).isSome <;>
        simp only [hq, if_true, if_false, Option.some.injEq, Prod.mk.injEq,
          Bool.false_eq_true] at h
      · exact h.2 ▸ ⟨hnd, hpd⟩
      · exact h.2 ▸ ⟨hnd, hpd⟩
    | none =>
      rw [hfind] at h
      cases hcell : getCell g mv.targetX mv.targetY with
      | none =>
        rw [hcell] at h
        simp only [Option.some.injEq, Prod.mk.injEq] at h
        exact h.2 ▸ ⟨hnd, hpd⟩
      | some tc =>
        rw [hcell] at h
        by_cases hs : isSolidAt ms tc.kind mv.targetX mv.targetY <;>
          simp only [hs, if_true, if_false, Option.some.injEq, Prod.mk.injEq,
            Bool.false_eq_true] at h
        · exact h.2 ▸ ⟨hnd, hpd⟩
        · refine h.2 ▸ ⟨ids_nodup_update _ _ _ (fun m => rfl) hnd, ?_⟩
          exact pairwise_update_free ms mv.marbleId _ mv.targetX mv.targetY
            (fun m _ _ => ⟨rfl, rfl⟩) (free_of_find?_none hfind) hnd hpd

theorem resolveMoves_preserves {g : List (List GridCell)} :
    ∀ (n : Nat) (q : List PendingMove) (ms ms2 : List Marble),
    resolveMoves g n q ms = some ms2 → IdsNodup ms → PosDistinct ms →
    IdsNodup ms2 ∧ PosDistinct ms2 := by
  intro n
  induction n with
  | zero =>
    intro q ms ms2 h hnd hpd
    by_cases hq : q.isEmpty <;> simp only [resolveMoves, hq, if_true, if_false,
      Option.some.injEq, Bool.false_eq_true, reduceCtorEq] at h
    exact h ▸ ⟨hnd, hpd⟩
  | succ k ih =>
    intro q ms ms2 h hnd hpd
    rw [resolveMoves] at h
    cases hstep : moveStep g q ms with
    | none =>
      rw [hstep] at h
      simp only [Option.some.injEq] at h
      exact h ▸ ⟨hnd, hpd⟩
    | some p =>
      rw [hstep] at h
      obtain ⟨hnd2, hpd2⟩ := moveStep_preserves hstep hnd hpd
      exact ih p.1 p.2 ms2 h hnd2 hpd2

theorem gravityStep_preserves {g : List (List GridCell)} {q q2 : List Nat}
    {ms ms2 : List Marble} (h : gravityStep g q ms = some (q2, ms2))
    (hnd : IdsNodup ms) (hpd : PosDistinct ms) : IdsNodup ms2 ∧ PosDistinct ms2 := by
  cases q with
  | nil => simp [gravityStep] at h
  | cons i rest =>
    rw [gravityStep] at h
    cases hfind : ms.find? (fun m => m.id == i) with
    | none =>
      rw [hfind] at h
      simp only [Option.some.injEq, Prod.mk.injEq] at h
      exact h.2 ▸ ⟨hnd, hpd⟩
    | some m =>
      simp only [hfind] at h
      have hmem : m ∈ ms := List.mem_of_find?_eq_some hfind
      have hmid : m.id = i := by simpa using List.find?_some hfind
      cases hbelow : getMarble ms m.x (m.y + 1) with
      | some mb =>
        rw [hbelow] at h
        by_cases hmv : mb.movedThisTick <;>
          simp only [hmv, if_true, if_false, Option.some.injEq, Prod.mk.injEq,
            Bool.false_eq_true] at h
        · refine h.2 ▸ ⟨ids_nodup_update _ _ _ (fun m => rfl) hnd, ?_⟩
          exact pairwise_update_pospres ms i _ (fun m => ⟨rfl, rfl⟩) hpd
        · exact h.2 ▸ ⟨hnd, hpd⟩
      | none =>
        rw [hbelow] at h
        have hfree : ∀ m2 ∈ ms, ¬(m2.x = m.x ∧ m2.y = m.y + 1) :=
          free_of_find?_none hbelow
        cases hcell : getCell g m.x (m.y + 1) with
        | none =>
          rw [hcell] at h
          simp only [Option.some.injEq, Prod.mk.injEq] at h
          refine h.2 ▸ ⟨ids_nodup_update _ _ _ (fun m => rfl) hnd, ?_⟩
          exact pairwise_update_pospres ms i _ (fun m => ⟨rfl, rfl⟩) hpd
        | some cb =>
          rw [hcell] at h
          by_cases hs : isSolidAt ms cb.kind m.x (m.y + 1) <;>
            simp only [hs, if_true, if_false, Option.some.injEq, Prod.mk.injEq,
              Bool.false_eq_true] at h
          · refine h.2 ▸ ⟨ids_nodup_update _ _ _ (fun m => rfl) hnd, ?_⟩
            exact pairwise_update_pospres ms i _ (fun m => ⟨rfl, rfl⟩) hpd
          · refine h.2 ▸ ⟨ids_nodup_update _ _ _ (fun m => rfl) hnd, ?_⟩
            refine pairwise_update_free ms i _ m.x (m.y + 1) ?_ hfree hnd hpd
            intro m2 hm2 hm2i
            have hm2m : m2 = m :=
              List.inj_on_of_nodup_map hnd hm2 hmem (by rw [hm2i, hmid])
            subst hm2m
            exact ⟨rfl, rfl⟩

theorem runGravity_preserves {g : List (List GridCell)} :
    ∀ (n : Nat) (q : List Nat) (ms ms2 : List Marble),
    runGravity g n q ms = some ms2 → IdsNodup ms → PosDistinct ms →
    IdsNodup ms2 ∧ PosDistinct ms2 := by
  intro n
  induction n with
  | zero =>
    intro q ms ms2 h hnd hpd
    by_cases hq : q.isEmpty <;> simp only [runGravity, hq, if_true, if_false,
      Option.some.injEq, Bool.false_eq_true, reduceCtorEq] at h
    exact h ▸ ⟨hnd, hpd⟩
  | succ k ih =>
    intro q ms ms2 h hnd hpd
    rw [runGravity] at h
    cases hstep : gravityStep g q ms with
    | none =>
      rw [hstep] at h
      simp only [Option.some.injEq] at h
      exact h ▸ ⟨hnd, hpd⟩
    | some p =>
      rw [hstep] at h
      obtain ⟨hnd2, hpd2⟩ := gravityStep_preserves hstep hnd hpd
      exact ih p.1 p.2 ms2 h hnd2 hpd2

theorem deleteOne_sublist (ms : List Marble) (i : Nat) : List.Sublist (deleteOne ms i) ms := by
  unfold deleteOne
  cases ms.findIdx? (fun m => m.id == i) with
  | none => exact List.dropLast_sublist ms
  | some idx => exact List.eraseIdx_sublist ms idx

theorem applyDeletes_preserves :
    ∀ (ids : List Nat) (ms : List Marble), IdsNodup ms → PosDistinct ms →
    IdsNodup (applyDeletes ms ids) ∧ PosDistinct (applyDeletes ms ids) := by
  intro ids
  induction ids with
  | nil => intro ms hnd hpd; exact ⟨hnd, hpd⟩
  | cons i rest ih =>
    intro ms hnd hpd
    have hsub := deleteOne_sublist ms i
    have hnd2 : IdsNodup (deleteOne ms i) := List.Nodup.sublist (hsub.map Marble.id) hnd
    have hpd2 : PosDistinct (deleteOne ms i) := List.Pairwise.sublist hsub hpd
    exact ih (deleteOne ms i) hnd2 hpd2

theorem applySpawns_pairwise :
    ∀ (ss ms : List Marble), PosDistinct ms → PosDistinct (applySpawns ms ss) := by
  intro ss
  induction ss with
  | nil => intro ms hpd; exact hpd
  | cons s rest ih =>
    intro ms hpd
    rw [applySpawns]
    by_cases hocc : (getMarble ms s.x s.y).isSome
    · rw [if_pos hocc]
      exact ih ms hpd
    · rw [if_neg hocc]
      refine ih (ms ++ [s]) ?_
      have hnone : getMarble ms s.x s.y = none := by
        cases hg : getMarble ms s.x s.y with
        | none => rfl
        | some m => rw [hg] at hocc; simp at hocc
      have hfree := free_of_find?_none (by simpa [getMarble] using hnone)
      refine List.pairwise_append.mpr ⟨hpd, List.pairwise_singleton _ _, ?_⟩
      intro a ha b hb
      simp only [List.mem_singleton] at hb
      subst hb
      exact hfree a ha

theorem modifyNth_getElem? (f : α → α) : ∀ (l : List α) (n : Nat),
    (modifyNth f n l)[n]? = l[n]?.map f := by
  intro l
  induction l with
  | nil => intro n; cases n <;> rfl
  | cons a t ih =>
    intro n
    cases n with
    | zero => simp [modifyNth]
    | succ k =>
      simp only [modifyNth, List.getElem?_cons_succ]
      exact ih k

theorem getCell_setActivated (g : List (List GridCell)) (x y : Int) :
    getCell (setActivated g x y) x y =
      (getCell g x y).map (fun c => { c with activated := true }) := by
  unfold getCell setActivated
  by_cases h : 0 ≤ x ∧ 0 ≤ y
  · simp only [if_pos h, modifyNth_getElem?]
    cases hgy : g[y.toNat]? with
    | none => simp
    | some row => simp [modifyNth_getElem?]
  · simp only [if_neg h]
    rfl

theorem getMarble_updateMarbles (ms : List Marble) (i : Nat) (f : Marble → Marble)
    (hf : ∀ m, (f m).x = m.x ∧ (f m).y = m.y) (x y : Int) :
    getMarble (updateMarbles ms i f) x y =
      (getMarble ms x y).map (fun m => if m.id = i then f m else m) := by
  unfold getMarble updateMarbles
  induction ms with
  | nil => rfl
  | cons a t ih =>
    rw [List.map_cons]
    have hga : ((if a.id = i then f a else a).x == x && (if a.id = i then f a else a).y == y) =
        (a.x == x && a.y == y) := by
      by_cases hai : a.id = i
      · rw [if_pos hai, (hf a).1, (hf a).2]
      · rw [if_neg hai]
    rw [List.find?_cons, List.find?_cons]
    rw [hga]
    by_cases hpa : (a.x == x && a.y == y) = true
    · rw [hpa]
      rfl
    · have hpa2 : (a.x == x && a.y == y) = false := by
        cases hb : (a.x == x && a.y == y) with
        | false => rfl
        | true => exact absurd hb hpa
      rw [hpa2]
      exact ih

theorem behind_ne_ahead (d : Direction) (x y : Int) :
    d.opposite.moveFrom (x, y) ≠ d.moveFrom (x, y) := by
  cases d <;> simp [Direction.moveFrom, Direction.opposite, Prod.ext_iff] <;> omega

theorem ids_map_pres (ms : List Marble) (f : Marble → Marble)
    (hf : ∀ m, (f m).id = m.id) : (ms.map f).map Marble.id = ms.map Marble.id := by
  rw [List.map_map]
  exact List.map_congr_left (fun m _ => hf m)

theorem pairwise_map_pres (ms : List Marble) (f : Marble → Marble)
    (hf : ∀ m, (f m).x = m.x ∧ (f m).y = m.y) (hpd : PosDistinct ms) :
    PosDistinct (ms.map f) := by
  refine List.Pairwise.map _ (fun a b hab => ?_) hpd
  rw [(hf a).1, (hf a).2, (hf b).1, (hf b).2]
  exact hab

theorem chunksOf2_odd : ∀ (l : List Char), l.length % 2 = 1 →
    ∃ c, (chunksOf2 l).getLast? = some [c] := by
  intro l
  induction l using chunksOf2.induct with
  | case1 => intro h; simp at h
  | case2 c => intro _; exact ⟨c, rfl⟩
  | case3 a b rest ih =>
    intro h
    have hr : rest.length % 2 = 1 := by
      simp only [List.length_cons] at h
      omega
    obtain ⟨c, hc⟩ := ih hr
    refine ⟨c, ?_⟩
    cases hrc : chunksOf2 rest with
    | nil => rw [hrc] at hc; simp at hc
    | cons d ds =>
      rw [chunksOf2, hrc]
      rw [hrc] at hc
      rw [List.getLast?_cons_cons]
      exact hc

theorem compileChunk_singleton (y x : Nat) (c : Char) :
    (compileChunk y x [c]).1 = ⟨.error, false⟩ ∧ (compileChunk y x [c]).2.1 = none ∧
    (compileChunk y x [c]).2.2 ≠ none := by
  refine ⟨rfl, rfl, ?_⟩
  have h3 : ((compileChunk y x [c]).2.2).isSome = true := rfl
  exact Option.ne_none_iff_isSome.mpr h3

/-! ### Claim theorems -/

/-- C1, counterexample: on `decrZero` the effect-phase scan drives the
marble's value to -1, and the stored post-tick value is 0, not the
`((v mod 256) + 256) mod 256 = 255` that the claim's wraparound formula
predicts — the clamp `Math.max(0, v % 256)` clamps negatives to 0
instead of wrapping them to the top of the range. -/
theorem clamp_clamps_instead_of_wrapping :
    (tickScan (resetActivation
        { decrZero with marbles := resetMarblesMoved decrZero.marbles })).marbles.map
      Marble.value = [-1] ∧
    (tick decrZero).marbles.map Marble.value = [0] ∧
    ((-1 : Int) % 256 + 256) % 256 = 255 ∧
    (tick decrZero).marbles.map Marble.value ≠ [((-1 : Int) % 256 + 256) % 256] := by
  refine ⟨by decide, by decide, by decide, by decide⟩

/-- C1, amended: after the effect phase each marble stores
`clampValue v = max 0 (v tmod 256)` of its pre-clamp value `v`; this
equals `v mod 256` (always in [0,255]) when `v` is non-negative, but a
negative `v` is clamped to 0 rather than wrapped to the top of the
range.  The result is always in [0,255]. -/
theorem clamp_value_characterization :
    (∀ v : Int, clampValue v = (if 0 ≤ v then v % 256 else 0) ∧
      0 ≤ clampValue v ∧ clampValue v ≤ 255) ∧
    ∀ st : Contraption, (tick st).marbles =
      (tickScan (resetActivation { st with marbles := resetMarblesMoved st.marbles })).marbles.map
        (fun m => { m with value := clampValue m.value }) := by
  constructor
  · intro v
    have hmain : clampValue v = if 0 ≤ v then v % 256 else 0 := by
      unfold clampValue
      by_cases hv : 0 ≤ v
      · rw [if_pos hv, Int.tmod_eq_emod hv (by norm_num)]
        exact max_eq_right (Int.emod_nonneg v (by norm_num))
      · rw [if_neg hv]
        have hle : v.tmod 256 ≤ 0 := by
          cases v with
          | ofNat n => exact absurd (Int.ofNat_nonneg n) hv
          | negSucc n =>
            have he : Int.tmod (Int.negSucc n) 256 = -(((n + 1) % 256 : Nat) : Int) := rfl
            rw [he]
            omega
        exact max_eq_left hle
    refine ⟨hmain, ?_, ?_⟩ <;> rw [hmain]
    · split
      · exact Int.emod_nonneg v (by norm_num)
      · exact le_refl 0
    · split
      · have := Int.emod_lt_of_pos v (show (0 : Int) < 256 by norm_num)
        omega
      · norm_num
  · intro st
    rfl

/-- C2: the FIFO-with-requeue move-resolution loop does not terminate on
the swap configuration — two queued moves each targeting the other
marble's current cell requeue each other forever, so for every fuel bound
the loop fails to drain the queue. -/
theorem swap_moves_never_resolve :
    ∀ n : Nat, resolveMoves swapGrid n swapQueue swapMarbles = none := by
  have hstep1 : moveStep swapGrid swapQueue swapMarbles = some (swapQueue2, swapMarbles) := by
    decide
  have hstep2 : moveStep swapGrid swapQueue2 swapMarbles = some (swapQueue, swapMarbles) := by
    decide
  have key : ∀ n : Nat, resolveMoves swapGrid n swapQueue swapMarbles = none ∧
      resolveMoves swapGrid n swapQueue2 swapMarbles = none := by
    intro n
    induction n with
    | zero => exact ⟨by decide, by decide⟩
    | succ k ih =>
      constructor
      · rw [resolveMoves, hstep1]
        exact ih.2
      · rw [resolveMoves, hstep2]
        exact ih.1
  exact fun n => (key n).1

/-- C4, counterexample: `tick` mutates the receiver in place — after
calling `tick` on `incrFive`, the receiver's observables (its marble now
has value 6) no longer read as they did before the call, contradicting
the claim that every observable of the original state is unchanged. -/
theorem tick_mutates_receiver :
    observables (tick incrFive) ≠ observables incrFive := by
  decide

/-- C4, amended: each transition returns a new `Contraption` object, but
the receiver is mutated in place; after the call the receiver's marble
values, positions, live set, output buffer and cell activation flags
coincide with those of the returned snapshot (the two share the mutated
marble and cell objects), not with the receiver's pre-call readings. -/
theorem transitions_alias_receiver :
    (∀ st : Contraption, observables (tick st) = observables (tickReturned st)) ∧
    ∀ (fuel : Nat) (st : Contraption),
      (moveMarblesSelf fuel st).map observables = (moveMarbles fuel st).map observables := by
  constructor
  · intro st
    rfl
  · intro fuel st
    unfold moveMarblesSelf moveMarbles
    cases h : moveMarblesParts fuel st with
    | none => rfl
    | some ms => rfl

/-- C6: a pending move whose destination is occupied by a marble with no
move request of its own in the remaining queue is dropped permanently for
the cycle: the loop iteration removes the request from the queue without
requeueing it and leaves every marble (requester and blocker included)
exactly where it was. -/
theorem blocked_move_dropped (g : List (List GridCell)) (mv : PendingMove)
    (rest : List PendingMove) (ms : List Marble) (obstacle : Marble)
    (hocc : ms.find? (fun m => m.x == mv.targetX && m.y == mv.targetY) = some obstacle)
    (hnomove : rest.find? (fun mv2 => mv2.marbleId == obstacle.id) = none) :
    moveStep g (mv :: rest) ms = some (rest, ms) := by
  simp only [moveStep, hocc, hnomove, Option.isSome_none, Bool.false_eq_true, if_false]

/-- C6, witness: in `blockedExample` marble 0 is queued onto the cell of
marble 1, which has no pending move; the request is dropped and the
marble list is unchanged. -/
theorem blocked_move_dropped_witness :
    moveStep swapGrid [⟨0, 1, 0⟩] swapMarbles = some ([], swapMarbles) :=
  blocked_move_dropped swapGrid ⟨0, 1, 0⟩ [] swapMarbles
    ⟨1, 0, 1, 0, false, false⟩ (by decide) (by decide)

/-- C8: a sieve cell is non-solid exactly when the cell directly above it
holds a marble of value 0; in every other configuration it is solid like
a Wall, and its step effect is a no-op. -/
theorem sieve_solidity (st : Contraption) (x y : Int) (act : Bool)
    (hcell : getCell st.grid x y = some ⟨.sieve, act⟩) :
    (isSolidAt st.marbles .sieve x y = false ↔
      ∃ m, getMarble st.marbles x (y - 1) = some m ∧ m.value = 0) ∧
    isSolidAt st.marbles .wall x y = true ∧
    tickCellAt st x y = st := by
  refine ⟨?_, rfl, ?_⟩
  · unfold isSolidAt
    cases hm : getMarble st.marbles x (y - 1) with
    | none => simp
    | some m => simp [bne]
  · simp [tickCellAt, hcell]

/-- C8, witness: in `sieveExample` a marble of value 0 sits directly above
the sieve at (0, 1), so the sieve is non-solid there. -/
theorem sieve_solidity_witness :
    isSolidAt sieveExample.marbles .sieve 0 1 = false ∧
    tickCellAt sieveExample 0 1 = sieveExample :=
  ⟨(sieve_solidity sieveExample 0 1 false (by decide)).1.mpr
      ⟨⟨0, 0, 0, 0, false, false⟩, by decide, by decide⟩,
    (sieve_solidity sieveExample 0 1 false (by decide)).2.2⟩

/-- C10, auxiliary: once some live marble occupies the coordinate, every
spawn request draining later leaves the marbles at that coordinate
unchanged. -/
theorem applySpawns_occupied (px py : Int) :
    ∀ (ss ms : List Marble), (∃ m ∈ ms, m.x = px ∧ m.y = py) →
    (applySpawns ms ss).filter (fun m => m.x == px && m.y == py) =
      ms.filter (fun m => m.x == px && m.y == py) := by
  intro ss
  induction ss with
  | nil => intro ms _; rfl
  | cons s rest ih =>
    intro ms hocc
    rw [applySpawns]
    by_cases hs : (getMarble ms s.x s.y).isSome
    · rw [if_pos hs]
      exact ih ms hocc
    · rw [if_neg hs]
      have hnone : getMarble ms s.x s.y = none := by
        cases hg : getMarble ms s.x s.y with
        | none => rfl
        | some m => rw [hg] at hs; simp at hs
      have hfree := free_of_find?_none (show List.find? _ ms = none from hnone)
      have hsp : ¬(s.x = px ∧ s.y = py) := by
        rintro ⟨hx, hy⟩
        obtain ⟨m, hm, hmx, hmy⟩ := hocc
        exact hfree m hm ⟨by omega, by omega⟩
      have hocc2 : ∃ m ∈ ms ++ [s], m.x = px ∧ m.y = py := by
        obtain ⟨m, hm, hmp⟩ := hocc
        exact ⟨m, List.mem_append_left _ hm, hmp⟩
      rw [ih (ms ++ [s]) hocc2, List.filter_append]
      have : List.filter (fun m => m.x == px && m.y == py) [s] = [] := by
        simp only [List.filter, List.filter_nil]
        have : (s.x == px && s.y == py) = false := by
          simp only [Bool.and_eq_false_iff, beq_eq_false_iff_ne]
          by_cases hx : s.x = px
          · right; intro hy; exact hsp ⟨hx, hy⟩
          · left; exact hx
        rw [this]
      rw [this, List.append_nil]

/-- C10: when no pre-existing live marble occupies a coordinate, the spawn
drain materializes exactly the first-enqueued spawn request targeting that
coordinate and silently drops every later one — the occupancy check of
each spawn sees the marbles materialized earlier in the same drain. -/
theorem spawn_first_wins :
    ∀ (ss ms : List Marble) (px py : Int), (∀ m ∈ ms, ¬(m.x = px ∧ m.y = py)) →
    (applySpawns ms ss).filter (fun m => m.x == px && m.y == py) =
      (ss.filter (fun m => m.x == px && m.y == py)).take 1 := by
  intro ss
  induction ss with
  | nil =>
    intro ms px py hfree
    simp only [applySpawns, List.filter_nil, List.take_nil]
    rw [List.filter_eq_nil_iff]
    intro m hm
    have := hfree m hm
    simp only [Bool.and_eq_true, beq_iff_eq]
    tauto
  | cons s rest ih =>
    intro ms px py hfree
    have hpred : ∀ m : Marble, (m.x == px && m.y == py) = true ↔ (m.x = px ∧ m.y = py) := by
      intro m
      simp
    rw [applySpawns]
    by_cases hs : (getMarble ms s.x s.y).isSome
    · rw [if_pos hs]
      have hsp : ¬(s.x = px ∧ s.y = py) := by
        rintro ⟨hx, hy⟩
        rw [Option.isSome_iff_exists] at hs
        obtain ⟨m, hm⟩ := hs
        have hmem : m ∈ ms := List.mem_of_find?_eq_some hm
        have hat := List.find?_some hm
        simp only [Bool.and_eq_true, beq_iff_eq] at hat
        exact hfree m hmem ⟨by omega, by omega⟩
      rw [List.filter_cons]
      have : (s.x == px && s.y == py) = false := by
        rw [Bool.eq_false_iff]
        intro hb
        exact hsp ((hpred s).mp hb)
      rw [this]
      simp only [Bool.false_eq_true, if_false]
      exact ih ms px py hfree
    · rw [if_neg hs]
      have hnone : getMarble ms s.x s.y = none := by
        cases hg : getMarble ms s.x s.y with
        | none => rfl
        | some m => rw [hg] at hs; simp at hs
      by_cases hsp : s.x = px ∧ s.y = py
      · have hocc : ∃ m ∈ ms ++ [s], m.x = px ∧ m.y = py :=
          ⟨s, List.mem_append_right _ (List.mem_singleton_self s), hsp⟩
        rw [applySpawns_occupied px py rest (ms ++ [s]) hocc, List.filter_append]
        have hmsnil : List.filter (fun m => m.x == px && m.y == py) ms = [] := by
          rw [List.filter_eq_nil_iff]
          intro m hm
          rw [hpred m]
          exact hfree m hm
        have hst : (s.x == px && s.y == py) = true := (hpred s).mpr hsp
        rw [hmsnil, List.nil_append, List.filter_cons, hst, List.filter_cons, hst]
        simp
      · have hfree2 : ∀ m ∈ ms ++ [s], ¬(m.x = px ∧ m.y = py) := by
          intro m hm
          rcases List.mem_append.mp hm with hml | hmr
          · exact hfree m hml
          · rw [List.mem_singleton] at hmr
            subst hmr
            exact hsp
        rw [ih (ms ++ [s]) px py hfree2, List.filter_cons]
        have : (s.x == px && s.y == py) = false := by
          rw [Bool.eq_false_iff]
          intro hb
          exact hsp ((hpred s).mp hb)
        rw [this]
        simp

/-- C10, witness: two spawn requests both targeting the empty coordinate
(1, 0): only the first (id 5) materializes. -/
theorem spawn_first_wins_witness :
    (applySpawns [] twinSpawns).filter (fun m => m.x == 1 && m.y == 0) =
      (twinSpawns.filter (fun m => m.x == 1 && m.y == 0)).take 1 ∧
    (applySpawns [] twinSpawns).map Marble.id = [5] :=
  ⟨spawn_first_wins twinSpawns [] 1 0 (by decide), by decide⟩

/-- C5: an add binary-operator cell with marble A one cell behind its
facing and marble B one cell ahead overwrites B's value with
`A.value + B.value` at its step, leaves A unchanged, and marks B and the
cell activated; if either neighboring marble is absent the step is a
no-op. -/
theorem adder_operates_on_neighbors (st : Contraption) (x y : Int) (d : Direction) (act : Bool)
    (hcell : getCell st.grid x y = some ⟨.adder d, act⟩) :
    ((getMarble st.marbles (d.opposite.moveFrom (x, y)).1 (d.opposite.moveFrom (x, y)).2 = none →
        tickCellAt st x y = st) ∧
      (getMarble st.marbles (d.moveFrom (x, y)).1 (d.moveFrom (x, y)).2 = none →
        tickCellAt st x y = st)) ∧
    ∀ ma mb, IdsNodup st.marbles →
      getMarble st.marbles (d.opposite.moveFrom (x, y)).1 (d.opposite.moveFrom (x, y)).2 =
        some ma →
      getMarble st.marbles (d.moveFrom (x, y)).1 (d.moveFrom (x, y)).2 = some mb →
      getMarble (tickCellAt st x y).marbles (d.moveFrom (x, y)).1 (d.moveFrom (x, y)).2 =
          some { mb with value := ma.value + mb.value, activatedThisTick := true } ∧
        getMarble (tickCellAt st x y).marbles (d.opposite.moveFrom (x, y)).1
          (d.opposite.moveFrom (x, y)).2 = some ma ∧
        getCell (tickCellAt st x y).grid x y = some ⟨.adder d, true⟩ := by
  constructor
  · constructor
    · intro hA
      simp [tickCellAt, hcell, hA]
    · intro hB
      cases hA : getMarble st.marbles (d.opposite.moveFrom (x, y)).1
          (d.opposite.moveFrom (x, y)).2 with
      | none => simp [tickCellAt, hcell, hA]
      | some ma => simp [tickCellAt, hcell, hA, hB]
  · intro ma mb hnd hA hB
    have hma : ma ∈ st.marbles := List.mem_of_find?_eq_some hA
    have hmb : mb ∈ st.marbles := List.mem_of_find?_eq_some hB
    have hpa := List.find?_some hA
    have hpb := List.find?_some hB
    simp only [Bool.and_eq_true, beq_iff_eq] at hpa hpb
    have hne : ma.id ≠ mb.id := by
      intro hid
      have heq : ma = mb := List.inj_on_of_nodup_map hnd hma hmb hid
      apply behind_ne_ahead d x y
      refine Prod.ext_iff.mpr ⟨?_, ?_⟩
      · rw [← hpa.1, heq, hpb.1]
      · rw [← hpa.2, heq, hpb.2]
    have hstep : tickCellAt st x y = { st with
        marbles := updateMarbles st.marbles mb.id
          (fun mm => { mm with value := ma.value + mb.value, activatedThisTick := true })
        grid := setActivated st.grid x y } := by
      simp [tickCellAt, hcell, hA, hB]
    rw [hstep]
    refine ⟨?_, ?_, ?_⟩
    · rw [show ({ st with
          marbles := updateMarbles st.marbles mb.id
            (fun mm => { mm with value := ma.value + mb.value, activatedThisTick := true })
          grid := setActivated st.grid x y } : Contraption).marbles =
          updateMarbles st.marbles mb.id
            (fun mm => { mm with value := ma.value + mb.value, activatedThisTick := true })
        from rfl]
      rw [getMarble_updateMarbles st.marbles mb.id
          (fun mm => { mm with value := ma.value + mb.value, activatedThisTick := true })
          (fun m => ⟨rfl, rfl⟩), hB]
      simp
    · rw [show ({ st with
          marbles := updateMarbles st.marbles mb.id
            (fun mm => { mm with value := ma.value + mb.value, activatedThisTick := true })
          grid := setActivated st.grid x y } : Contraption).marbles =
          updateMarbles st.marbles mb.id
            (fun mm => { mm with value := ma.value + mb.value, activatedThisTick := true })
        from rfl]
      rw [getMarble_updateMarbles st.marbles mb.id
          (fun mm => { mm with value := ma.value + mb.value, activatedThisTick := true })
          (fun m => ⟨rfl, rfl⟩), hA]
      simp [hne]
    · rw [show ({ st with
          marbles := updateMarbles st.marbles mb.id
            (fun mm => { mm with value := ma.value + mb.value, activatedThisTick := true })
          grid := setActivated st.grid x y } : Contraption).grid =
          setActivated st.grid x y from rfl]
      rw [getCell_setActivated, hcell]
      rfl

/-- C5, witness: in `adderExample` (A = 3 behind, B = 10 ahead of a
right-facing adder at (1,0)) one step yields B = 13 and activated, A
unchanged, and the cell activated. -/
theorem adder_operates_on_neighbors_witness :
    getMarble (tickCellAt adderExample 1 0).marbles
        (Direction.right.moveFrom (1, 0)).1 (Direction.right.moveFrom (1, 0)).2 =
      some ⟨1, 13, 2, 0, false, true⟩ ∧
    getMarble (tickCellAt adderExample 1 0).marbles
        (Direction.right.opposite.moveFrom (1, 0)).1
        (Direction.right.opposite.moveFrom (1, 0)).2 = some ⟨0, 3, 0, 0, false, false⟩ ∧
    getCell (tickCellAt adderExample 1 0).grid 1 0 = some ⟨.adder .right, true⟩ :=
  (adder_operates_on_neighbors adderExample 1 0 .right false (by decide)).2
    ⟨0, 3, 0, 0, false, false⟩ ⟨1, 10, 2, 0, false, false⟩
    (by decide) (by decide) (by decide)

/-- C7: a teleporter keyed `c` occupied by a marble queues a move of that
occupant to the coordinates of the unique Label cell sharing the key
anywhere on the grid, and is a no-op when no matching label exists; on
the concrete `teleExample` a full cycle (tick then movement phase)
relocates the marble to the label's coordinates within that movement
phase.  The Teleporter and Label behaviors are modelled from the spec —
their code is absent from the sources under src/. -/
theorem teleporter_relocates :
    (∀ (st : Contraption) (x y : Int) (c : Char) (act : Bool) (m : Marble) (lx ly : Int),
        getCell st.grid x y = some ⟨.teleporter c, act⟩ →
        getMarble st.marbles x y = some m →
        labelPositions st.grid c = [(lx, ly)] →
        tickCellAt st x y = { st with pendingMoves := st.pendingMoves ++ [⟨m.id, lx, ly⟩] }) ∧
    (∀ (st : Contraption) (x y : Int) (c : Char) (act : Bool),
        getCell st.grid x y = some ⟨.teleporter c, act⟩ →
        labelPositions st.grid c = [] →
        tickCellAt st x y = st) ∧
    ((moveMarbles 5 (tick teleExample)).map (fun s => s.marbles.map (fun m => (m.x, m.y))) =
        some [(2, 0)] ∧
      labelPositions teleExample.grid 'a' = [(2, 0)]) := by
  refine ⟨?_, ?_, by decide, by decide⟩
  · intro st x y c act m lx ly hcell hm hlab
    simp [tickCellAt, hcell, hm, hlab]
  · intro st x y c act hcell hlab
    cases hm : getMarble st.marbles x y with
    | none => simp [tickCellAt, hcell, hm]
    | some m => simp [tickCellAt, hcell, hm, hlab]

/-- C7, witness: the general teleporter step applied to `teleExample`
queues a move of the occupant (id 0) to the unique label position
(2, 0). -/
theorem teleporter_relocates_witness :
    tickCellAt teleExample 0 0 =
      { teleExample with pendingMoves := teleExample.pendingMoves ++ [⟨0, 2, 0⟩] } :=
  teleporter_relocates.1 teleExample 0 0 'a' false ⟨0, 7, 0, 0, false, false⟩ 2 0
    (by decide) (by decide) (by decide)

/-- C9, counterexample: compiling the odd-length line `##x` does not
ignore the trailing `x`: it produces an Error cell at cell (1, 0) and a
compile diagnostic, contradicting the claim that the leftover character
yields no cell other than padding and no diagnostic (no marble is
produced, as the claim says). -/
theorem odd_tail_not_ignored :
    (compile "##x").errors ≠ [] ∧
    getCell (compile "##x").contraption.grid 1 0 = some ⟨.error, false⟩ ∧
    (compile "##x").contraption.marbles = [] := by
  refine ⟨by decide, by decide, by decide⟩

/-- C9, amended: after trailing whitespace is trimmed, a line of odd
length keeps its final character as a one-character chunk (the greedy
`.{1,2}` match); a one-character chunk never compiles to a marble or a
known cell — it becomes an Error cell and a diagnostic, so the compiled
line's diagnostics are non-empty. -/
theorem odd_line_yields_error (y : Nat) (l : List Char)
    (hodd : (trimEnd l).length % 2 = 1) :
    (∃ c, (chunksOf2 (trimEnd l)).getLast? = some [c]) ∧
    (∀ (x : Nat) (c : Char), (compileChunk y x [c]).1 = ⟨.error, false⟩ ∧
      (compileChunk y x [c]).2.1 = none ∧ (compileChunk y x [c]).2.2 ≠ none) ∧
    (compileLine y l).2.2 ≠ [] := by
  obtain ⟨c, hc⟩ := chunksOf2_odd _ hodd
  refine ⟨⟨c, hc⟩, fun x c2 => compileChunk_singleton y x c2, ?_⟩
  intro hnil
  have hform : (compileLine y l).2.2 =
      ((chunksOf2 (trimEnd l)).enum).filterMap (fun p => (compileChunk y p.1 p.2).2.2) := rfl
  rw [hform] at hnil
  have hnil2 := List.filterMap_eq_nil_iff.mp hnil
  have hmem : [c] ∈ chunksOf2 (trimEnd l) := List.mem_of_getLast?_eq_some hc
  obtain ⟨i, hi⟩ := List.mem_iff_getElem?.mp hmem
  have henum : (i, [c]) ∈ (chunksOf2 (trimEnd l)).enum :=
    List.mk_mem_enum_iff_getElem?.mpr hi
  have hd := hnil2 (i, [c]) henum
  exact (compileChunk_singleton y i c).2.2 hd

/-- C9, witness: the line `##x` has odd trimmed length; its compilation
carries a diagnostic. -/
theorem odd_line_yields_error_witness :
    (∃ c, (chunksOf2 (trimEnd "##x".toList)).getLast? = some [c]) ∧
    (∀ (x : Nat) (c : Char), (compileChunk 0 x [c]).1 = ⟨.error, false⟩ ∧
      (compileChunk 0 x [c]).2.1 = none ∧ (compileChunk 0 x [c]).2.2 ≠ none) ∧
    (compileLine 0 "##x".toList).2.2 ≠ [] :=
  odd_line_yields_error 0 "##x".toList (by decide)

/-- C3: after any completed movement phase, no two distinct live marbles
occupy the same coordinate — provided the incoming state's marbles sit on
pairwise distinct coordinates (and are distinct objects, i.e. have
distinct ids).  Moves commit only onto cells empty at commit time,
gravity drops a marble only into an empty cell, and spawns are skipped on
occupied coordinates, so distinctness is preserved through the whole
phase. -/
theorem moveMarbles_mutual_exclusion (fuel : Nat) (st st2 : Contraption)
    (h : moveMarbles fuel st = some st2)
    (hnd : IdsNodup st.marbles) (hpd : PosDistinct st.marbles) :
    PosDistinct st2.marbles := by
  unfold moveMarbles at h
  cases hp : moveMarblesParts fuel st with
  | none => rw [hp] at h; simp at h
  | some ms =>
    rw [hp] at h
    simp only [Option.map_some', Option.some.injEq] at h
    subst h
    rw [moveMarblesParts] at hp
    cases hres : resolveMoves (resetActivation st).grid fuel st.pendingMoves
        (applyDeletes (resetActivation st).marbles st.pendingDeletes) with
    | none => rw [hres] at hp; simp at hp
    | some ms1 =>
      rw [hres] at hp
      simp only [Option.some_bind] at hp
      cases hgrav : runGravity (resetActivation st).grid fuel
          ((ms1.filter (fun m => !m.movedThisTick)).map Marble.id) ms1 with
      | none => rw [hgrav] at hp; simp at hp
      | some ms2 =>
        rw [hgrav] at hp
        simp only [Option.map_some', Option.some.injEq] at hp
        have hra : (resetActivation st).marbles =
            st.marbles.map (fun m => { m with activatedThisTick := false }) := rfl
        have hnd0 : IdsNodup (resetActivation st).marbles := by
          rw [hra]
          unfold IdsNodup
          rw [ids_map_pres st.marbles (fun m => { m with activatedThisTick := false })
            (fun m => rfl)]
          exact hnd
        have hpd0 : PosDistinct (resetActivation st).marbles := by
          rw [hra]
          exact pairwise_map_pres st.marbles (fun m => { m with activatedThisTick := false })
            (fun m => ⟨rfl, rfl⟩) hpd
        obtain ⟨hnd1, hpd1⟩ := applyDeletes_preserves st.pendingDeletes _ hnd0 hpd0
        obtain ⟨hnd2, hpd2⟩ := resolveMoves_preserves fuel _ _ _ hres hnd1 hpd1
        obtain ⟨hnd3, hpd3⟩ := runGravity_preserves fuel _ _ _ hgrav hnd2 hpd2
        have hfinal := applySpawns_pairwise st.pendingSpawns ms2 hpd3
        rw [hp] at hfinal
        exact hfinal

/-- C3, witness: `blockedExample`'s movement phase (blocked move dropped,
both marbles settled by gravity) completes and ends with distinct
coordinates. -/
theorem moveMarbles_mutual_exclusion_witness :
    IdsNodup blockedExample.marbles ∧ PosDistinct blockedExample.marbles ∧
    moveMarbles 3 blockedExample = some ⟨2, 1, swapGrid,
      [⟨0, 0, 0, 0, true, false⟩, ⟨1, 0, 1, 0, true, false⟩], "", [], [], [], 2⟩ ∧
    PosDistinct [⟨0, 0, 0, 0, true, false⟩, ⟨1, 0, 1, 0, true, false⟩] :=
  ⟨by decide, by decide, by decide,
    moveMarbles_mutual_exclusion 3 blockedExample
      ⟨2, 1, swapGrid, [⟨0, 0, 0, 0, true, false⟩, ⟨1, 0, 1, 0, true, false⟩], "", [], [], [], 2⟩
      (by decide) (by decide) (by decide)⟩

end Heathscript
